import Mathlib

/-
Verification of the AntChill launcher's installation / update / repair
orchestration.  The authoritative frontend logic lives in src/src/App.tsx
(with older variants among the unnamed sources); the Rust backend commands
invoked through Tauri (install pipeline, backup manager, repair engine,
local scan) are not among the source files and, where a claim depends on
them, are modelled from the specification and marked as such.

Conventions of the embedding:
* TypeScript optional fields become Option.
* JavaScript numbers become rationals; the monotonicity facts proved about
  them hold for IEEE doubles as well since rounding is monotone.
* A game's manifest record keeps exactly the fields the orchestration
  reads; presentation-only fields (image urls, descriptions, ...) are
  irrelevant to every claim and are omitted.
* The outcome of one streamed transfer from one mirror is supplied by an
  environment function mapping the mirror to none (success) or some reason
  (the thrown error), standing for the awaited result of the
  download_game_with_progress Tauri invocation.
-/

namespace Launcher

/-- One candidate download source, interface DownloadUrl of src/src/App.tsx. -/
structure DownloadUrl where
  name : String
  url : String
  type : String
  size : String
  primary : Bool
deriving DecidableEq, Repr

/-- Manifest entry, interface GameInfo of src/src/App.tsx restricted to the
fields the install / repair / status logic reads. -/
structure GameInfo where
  id : String
  name : String
  version : String
  status : String
  download_urls : Option (List DownloadUrl)
  executable_path : Option String
  is_coming_soon : Bool
  repair_enabled : Bool
deriving DecidableEq, Repr

/-- The comparator passed to Array.prototype.sort at src/src/App.tsx lines
269-273: primaries order strictly before non-primaries, everything else
ties. -/
def cmpUrls (a b : DownloadUrl) : Int :=
  if a.primary && !b.primary then -1
  else if !a.primary && b.primary then 1
  else 0

/-- Stable insertion of x in front of the first element it may precede
(strictly smaller comparator value, or a tie with an element that came later
in the original list). -/
def sortInsert (x : DownloadUrl) : List DownloadUrl → List DownloadUrl
  | [] => [x]
  | y :: ys => if cmpUrls x y ≤ 0 then x :: y :: ys else y :: sortInsert x ys

/-- The sorted mirror list of src/src/App.tsx line 269,
[...game.download_urls].sort(cmpUrls).  Array.prototype.sort is stable
(ES2019), so the call denotes the stable sort by cmpUrls, embedded here as
a stable insertion sort. -/
def sortUrls (l : List DownloadUrl) : List DownloadUrl :=
  l.foldr sortInsert []

/-- What the mirror loop of handleDownloadGame has produced when it stops:
the mirrors attempted in order, the mirror that succeeded (if any), and the
running lastError variable. -/
structure RunResult where
  attempts : List DownloadUrl
  winner : Option DownloadUrl
  lastError : String
deriving DecidableEq, Repr

/-- The for-loop of src/src/App.tsx lines 277-322: try each mirror in order;
on success stop (the function returns), on a thrown error record it in
lastError and continue with the next mirror. -/
def runMirrors (env : DownloadUrl → Option String) :
    List DownloadUrl → String → RunResult
  | [], le => ⟨[], none, le⟩
  | u :: rest, le =>
    match env u with
    | none => ⟨[u], some u, le⟩
    | some e =>
      let r := runMirrors env rest e
      ⟨u :: r.attempts, r.winner, r.lastError⟩

/-- One entry of the downloadProgress state map of src/src/App.tsx line 89. -/
structure ProgressEntry where
  gameId : String
  progress : ℚ
  urlName : String
deriving DecidableEq, Repr

/-- The React state handleDownloadGame touches: the downloading marker, the
per-game progress map (as an association list) and the games list. -/
structure AppState where
  downloading : Option String
  downloadProgress : List ProgressEntry
  games : List GameInfo
deriving DecidableEq, Repr

/-- How handleDownloadGame ends, as surfaced to the user: the early return
when no urls exist, the success alert naming the mirror used, or the
all-failed alert listing the tried source names and the last error. -/
inductive Outcome where
  | noUrls : Outcome
  | installed (sourceName : String) : Outcome
  | failed (triedNames : List String) (lastError : String) : Outcome
deriving DecidableEq, Repr

/-- Deletion of the game's entry from the downloadProgress map
(delete newProgress[game.id] at src/src/App.tsx lines 300-304 and 328-332). -/
def clearProgress (gid : String) (m : List ProgressEntry) : List ProgressEntry :=
  m.filter (fun e => e.gameId ≠ gid)

/-- handleDownloadGame of src/src/App.tsx lines 260-342 run to completion.
`env` supplies each mirror's transfer outcome and `refreshed` the games list
the success path re-fetches via get_games.  Guard: with no download_urls (or
an empty list) the function returns before touching any state.  Otherwise it
marks the game downloading, walks the sorted mirrors, and ends either on the
success path (games refreshed, progress cleared, downloading NOT reset — the
return at line 310 skips setDownloading(null)) or on the all-failed path
(progress cleared, downloading reset, alert carrying the tried source names
and the last error). -/
def handleDownloadGame (env : DownloadUrl → Option String)
    (refreshed : List GameInfo) (st : AppState) (g : GameInfo) :
    AppState × Outcome :=
  match g.download_urls with
  | none => (st, .noUrls)
  | some [] => (st, .noUrls)
  | some urls =>
    let st1 : AppState := { st with downloading := some g.id }
    let sorted := sortUrls urls
    let r := runMirrors env sorted ""
    match r.winner with
    | some u =>
      ({ st1 with
          games := refreshed,
          downloadProgress := clearProgress g.id st1.downloadProgress },
        .installed u.name)
    | none =>
      ({ st1 with
          downloading := none,
          downloadProgress := clearProgress g.id st1.downloadProgress },
        .failed (sorted.map (fun u => u.name)) r.lastError)

/-- Mirrors whose transfer fails under env, in the order attempted, paired
with the reason thrown. -/
def attemptReasons (env : DownloadUrl → Option String)
    (l : List DownloadUrl) : List String :=
  (runMirrors env l "").attempts.map (fun u => (env u).getD "")

end Launcher

namespace Launcher

theorem sortUrls_eq_filter (l : List DownloadUrl) :
    sortUrls l = l.filter (fun u => u.primary) ++ l.filter (fun u => !u.primary) := by
  induction l with
  | nil => rfl
  | cons a l ih =>
    by_cases ha : a.primary
    · simp only [sortUrls, List.foldr_cons, List.filter_cons, ha]
      show sortInsert a (sortUrls l) = _
      rw [ih]
      cases hp : l.filter (fun u => u.primary) with
      | nil =>
        cases hq : l.filter (fun u => !u.primary) with
        | nil => simp [sortInsert]
        | cons b bs =>
          have hb : b.primary = false := by
            have hmem : b ∈ l.filter (fun u => !u.primary) := by
              rw [hq]; exact List.mem_cons_self b bs
            have := List.of_mem_filter hmem
            simpa using this
          simp [sortInsert, cmpUrls, ha, hb]
      | cons b bs =>
        have hb : b.primary = true := by
          have hmem : b ∈ l.filter (fun u => u.primary) := by
            rw [hp]; exact List.mem_cons_self b bs
          have := List.of_mem_filter hmem
          simpa using this
        simp [sortInsert, cmpUrls, ha, hb]
    · have ha' : a.primary = false := by simpa using ha
      simp only [sortUrls, List.foldr_cons, List.filter_cons, ha']
      show sortInsert a (sortUrls l) = _
      rw [ih]
      have key : ∀ P N : List DownloadUrl,
          (∀ x ∈ P, x.primary = true) → (∀ x ∈ N, x.primary = false) →
          sortInsert a (P ++ N) = P ++ a :: N := by
        intro P
        induction P with
        | nil =>
          intro N _ hN
          cases N with
          | nil => simp [sortInsert]
          | cons b bs =>
            have hb := hN b (List.mem_cons_self b bs)
            simp [sortInsert, cmpUrls, ha', hb]
        | cons p ps ihp =>
          intro N hP hN
          have hp := hP p (List.mem_cons_self p ps)
          have step : sortInsert a (p :: (ps ++ N)) =
              p :: sortInsert a (ps ++ N) := by
            simp [sortInsert, cmpUrls, ha', hp]
          simp only [List.cons_append, step,
            ihp N (fun x hx => hP x (List.mem_cons_of_mem p hx)) hN]
      rw [key]
      · simp
      · intro x hx; simpa using List.of_mem_filter hx
      · intro x hx; simpa using List.of_mem_filter hx

theorem runMirrors_attempts_append (env : DownloadUrl → Option String)
    (l : List DownloadUrl) (le : String) :
    ∃ t, l = (runMirrors env l le).attempts ++ t := by
  induction l generalizing le with
  | nil => exact ⟨[], rfl⟩
  | cons u rest ih =>
    cases henv : env u with
    | none => exact ⟨rest, by simp [runMirrors, henv]⟩
    | some e =>
      obtain ⟨t, ht⟩ := ih e
      exact ⟨t, by simp [runMirrors, henv]; exact ht⟩

/-- All-fail behaviour of the loop: every mirror is attempted, no winner,
and lastError ends as the reason of the last mirror. -/
theorem runMirrors_all_fail (env : DownloadUrl → Option String)
    (l : List DownloadUrl) (le : String)
    (h : ∀ u ∈ l, (env u).isSome) :
    (runMirrors env l le).attempts = l ∧
    (runMirrors env l le).winner = none ∧
    (runMirrors env l le).lastError =
      (match l.getLast? with
       | none => le
       | some u => (env u).getD "") := by
  induction l generalizing le with
  | nil => exact ⟨rfl, rfl, rfl⟩
  | cons u rest ih =>
    have hu := h u (List.mem_cons_self u rest)
    cases henv : env u with
    | none => simp [henv] at hu
    | some e =>
      have hrest := ih e (fun v hv => h v (List.mem_cons_of_mem u hv))
      refine ⟨?_, ?_, ?_⟩
      · simp [runMirrors, henv, hrest.1]
      · simp [runMirrors, henv, hrest.2.1]
      · cases rest with
        | nil => simp [runMirrors, henv]
        | cons v vs =>
          simpa [runMirrors, henv, List.getLast?_cons_cons] using hrest.2.2

/-- Fallback success: if every mirror of the front part fails and u then
succeeds, the loop attempts exactly the front part plus u and stops with
winner u. -/
theorem runMirrors_fallback (env : DownloadUrl → Option String)
    (l₁ : List DownloadUrl) (u : DownloadUrl) (le : String)
    (hfail : ∀ m ∈ l₁, (env m).isSome) (hsucc : env u = none) :
    (runMirrors env (l₁ ++ [u]) le).attempts = l₁ ++ [u] ∧
    (runMirrors env (l₁ ++ [u]) le).winner = some u := by
  induction l₁ generalizing le with
  | nil => constructor <;> simp [runMirrors, hsucc]
  | cons m ms ih =>
    have hm := hfail m (List.mem_cons_self m ms)
    cases henv : env m with
    | none => simp [henv] at hm
    | some e =>
      have := ih e (fun v hv => hfail v (List.mem_cons_of_mem m hv))
      constructor
      · simp [runMirrors, henv, this.1]
      · simp [runMirrors, henv, this.2]

/-- The sorted mirror list is a permutation of the declared one. -/
theorem sortUrls_perm (l : List DownloadUrl) : (sortUrls l).Perm l := by
  rw [sortUrls_eq_filter]
  exact List.filter_append_perm (fun u => u.primary) l

/-- C1: for an install over mirrors whose attempt order is l₁ ++ [u] with
every transfer from l₁ failing and the transfer from u succeeding, the
operation ends on the success path naming u as the source, and the loop has
attempted every mirror exactly once, in order: the attempt log is the whole
sorted list, of length N = (number of mirrors). -/
theorem install_fallback_uses_last_mirror
    (env : DownloadUrl → Option String) (refreshed : List GameInfo)
    (st : AppState) (g : GameInfo) (urls : List DownloadUrl)
    (l₁ : List DownloadUrl) (u : DownloadUrl)
    (hurls : g.download_urls = some urls)
    (hsorted : sortUrls urls = l₁ ++ [u])
    (hfail : ∀ m ∈ l₁, (env m).isSome) (hsucc : env u = none) :
    (handleDownloadGame env refreshed st g).2 = .installed u.name ∧
    (runMirrors env (sortUrls urls) "").attempts = l₁ ++ [u] ∧
    (runMirrors env (sortUrls urls) "").attempts.length = urls.length := by
  obtain ⟨hatt, hwin⟩ := runMirrors_fallback env l₁ u "" hfail hsucc
  have hlen : (runMirrors env (sortUrls urls) "").attempts.length = urls.length := by
    rw [hsorted, hatt, ← hsorted]
    exact (sortUrls_perm urls).length_eq
  cases urls with
  | nil => simp [sortUrls] at hsorted
  | cons v vs =>
    refine ⟨?_, ?_, hlen⟩
    · simp only [handleDownloadGame, hurls, hsorted, hwin]
    · rw [hsorted]; exact hatt

/-- C2: the loop attempts the mirrors of download_urls in priority order —
the sorted list is exactly the primaries in declaration order followed by
the non-primaries in declaration order, and the attempt log is a prefix of
it — and, the declared list being duplicate-free, no mirror is attempted
twice. -/
theorem mirrors_priority_order_no_repeat
    (env : DownloadUrl → Option String) (urls : List DownloadUrl)
    (le : String) (hnd : urls.Nodup) :
    sortUrls urls =
      urls.filter (fun u => u.primary) ++ urls.filter (fun u => !u.primary) ∧
    (∃ t, sortUrls urls = (runMirrors env (sortUrls urls) le).attempts ++ t) ∧
    (runMirrors env (sortUrls urls) le).attempts.Nodup := by
  refine ⟨sortUrls_eq_filter urls, ?_, ?_⟩
  · obtain ⟨t, ht⟩ := runMirrors_attempts_append env (sortUrls urls) le
    exact ⟨t, ht⟩
  · have hsorted : (sortUrls urls).Nodup := (sortUrls_perm urls).nodup_iff.mpr hnd
    obtain ⟨t, ht⟩ := runMirrors_attempts_append env (sortUrls urls) le
    have hsub := List.sublist_append_left (runMirrors env (sortUrls urls) le).attempts t
    rw [← ht] at hsub
    exact List.Nodup.sublist hsub hsorted

/-- Concrete primary mirror used by the witnesses. -/
def mirA : DownloadUrl := ⟨"gdrive", "https://a/1.zip", "zip", "1.2GB", true⟩

/-- Concrete secondary mirror used by the witnesses. -/
def mirB : DownloadUrl := ⟨"mega", "https://b/1.zip", "zip", "1.2GB", false⟩

/-- Concrete tertiary mirror used by the witnesses. -/
def mirC : DownloadUrl := ⟨"mediafire", "https://c/1.zip", "zip", "1.2GB", false⟩

/-- Concrete manifest entry used by the witnesses. -/
def gameW : GameInfo :=
  ⟨"stellar_quest", "Stellar Quest", "2.2.3", "available",
    some [mirB, mirA, mirC], none, false, true⟩

/-- Concrete transfer environment: only the mediafire mirror succeeds. -/
def envW : DownloadUrl → Option String := fun m =>
  if m.name = "mediafire" then none else some ("HTTP 500 from " ++ m.name)

/-- Concrete initial React state used by the witnesses. -/
def stW : AppState := ⟨none, [], []⟩

theorem install_fallback_uses_last_mirror_witness :
    (handleDownloadGame envW [] stW gameW).2 = .installed "mediafire" ∧
    (runMirrors envW (sortUrls [mirB, mirA, mirC]) "").attempts =
      [mirA, mirB] ++ [mirC] ∧
    (runMirrors envW (sortUrls [mirB, mirA, mirC]) "").attempts.length =
      [mirB, mirA, mirC].length :=
  install_fallback_uses_last_mirror envW [] stW gameW [mirB, mirA, mirC]
    [mirA, mirB] mirC (by decide) (by decide) (by decide) (by decide)

theorem mirrors_priority_order_no_repeat_witness :
    sortUrls [mirB, mirA, mirC] =
      [mirB, mirA, mirC].filter (fun u => u.primary) ++
        [mirB, mirA, mirC].filter (fun u => !u.primary) ∧
    (∃ t, sortUrls [mirB, mirA, mirC] =
      (runMirrors envW (sortUrls [mirB, mirA, mirC]) "").attempts ++ t) ∧
    (runMirrors envW (sortUrls [mirB, mirA, mirC]) "").attempts.Nodup :=
  mirrors_priority_order_no_repeat envW [mirB, mirA, mirC] "" (by decide)

/-- C3 as stated, formalised: some reading of the failure report (the tried
source names and the lastError string surfaced by the alert of
src/src/App.tsx lines 335-340) recovers the failure reason of every
attempted mirror in attempt order.  The report is the entire per-operation
failure information the function exposes, so the claim amounts to the
existence of such a recovery function. -/
def reportCarriesEveryReason : Prop :=
  ∃ recover : List String × String → List String,
    ∀ (env : DownloadUrl → Option String) (refreshed : List GameInfo)
      (st : AppState) (g : GameInfo) (urls : List DownloadUrl)
      (names : List String) (le : String),
      g.download_urls = some urls →
      (∀ u ∈ sortUrls urls, (env u).isSome) →
      (handleDownloadGame env refreshed st g).2 = .failed names le →
      recover (names, le) = attemptReasons env (sortUrls urls)

/-- Transfer environment in which the primary mirror dies with a connection
error and every other mirror answers HTTP 500. -/
def envX1 : DownloadUrl → Option String := fun m =>
  if m.name = "gdrive" then some "connection refused" else some "HTTP 500"

/-- Transfer environment in which the primary mirror times out and every
other mirror answers HTTP 500. -/
def envX2 : DownloadUrl → Option String := fun m =>
  if m.name = "gdrive" then some "timeout" else some "HTTP 500"

/-- Concrete two-mirror manifest entry for the failure-report analysis. -/
def gameF : GameInfo :=
  ⟨"stellar_quest", "Stellar Quest", "2.2.3", "available",
    some [mirA, mirB], none, false, true⟩

/-- C3 counterexample: the failure report does not carry every per-mirror
reason.  Two runs over the same two mirrors whose first attempts fail for
different reasons ("connection refused" vs "timeout") produce the very same
report (names ["gdrive", "mega"], lastError "HTTP 500"), so no reading of
the report can return the full ordered reason lists, which differ. -/
theorem failure_report_loses_first_reason : ¬ reportCarriesEveryReason := by
  rintro ⟨recover, h⟩
  have h1 := h envX1 [] stW gameF [mirA, mirB] ["gdrive", "mega"] "HTTP 500"
    (by decide) (by decide) (by decide)
  have h2 := h envX2 [] stW gameF [mirA, mirB] ["gdrive", "mega"] "HTTP 500"
    (by decide) (by decide) (by decide)
  have heq : attemptReasons envX1 (sortUrls [mirA, mirB]) =
      attemptReasons envX2 (sortUrls [mirA, mirB]) := h1 ▸ h2
  exact absurd heq (by decide)

/-- C3 amended: when every mirror attempt fails the operation terminates on
the failure path, and the report carries the names of all attempted mirrors
in attempt order together with the failure reason of the last attempt only
(each earlier reason having been overwritten in lastError). -/
theorem all_mirrors_failed_report
    (env : DownloadUrl → Option String) (refreshed : List GameInfo)
    (st : AppState) (g : GameInfo) (urls : List DownloadUrl)
    (hurls : g.download_urls = some urls) (hne : urls ≠ [])
    (hfail : ∀ u ∈ sortUrls urls, (env u).isSome) :
    (runMirrors env (sortUrls urls) "").attempts = sortUrls urls ∧
    ∃ last : DownloadUrl, (sortUrls urls).getLast? = some last ∧
      (handleDownloadGame env refreshed st g).2 =
        .failed ((sortUrls urls).map (fun u => u.name)) ((env last).getD "") := by
  obtain ⟨hatt, hwin, hle⟩ := runMirrors_all_fail env (sortUrls urls) "" hfail
  have hsne : sortUrls urls ≠ [] := by
    intro hcon
    have := (sortUrls_perm urls).length_eq
    rw [hcon] at this
    exact hne (List.eq_nil_of_length_eq_zero this.symm)
  obtain ⟨last, hlast⟩ := Option.ne_none_iff_exists'.mp
    (mt List.getLast?_eq_none_iff.mp hsne)
  refine ⟨hatt, last, hlast, ?_⟩
  cases urls with
  | nil => exact absurd rfl hne
  | cons v vs =>
    rw [hlast] at hle
    simp only [handleDownloadGame, hurls, hwin, hle]

theorem all_mirrors_failed_report_witness :
    (runMirrors envX1 (sortUrls [mirA, mirB]) "").attempts =
      sortUrls [mirA, mirB] ∧
    ∃ last : DownloadUrl, (sortUrls [mirA, mirB]).getLast? = some last ∧
      (handleDownloadGame envX1 [] stW gameF).2 =
        .failed ((sortUrls [mirA, mirB]).map (fun u => u.name))
          ((envX1 last).getD "") :=
  all_mirrors_failed_report envX1 [] stW gameF [mirA, mirB]
    (by decide) (by decide) (by decide)

/-- C10: with download_urls absent or empty, handleDownloadGame returns at
its guard: no mirror is attempted and the React state (downloading marker,
progress map, games list) is exactly the input state. -/
theorem no_urls_returns_untouched
    (env : DownloadUrl → Option String) (refreshed : List GameInfo)
    (st : AppState) (g : GameInfo)
    (h : g.download_urls = none ∨ g.download_urls = some []) :
    handleDownloadGame env refreshed st g = (st, .noUrls) := by
  rcases h with h | h <;> simp [handleDownloadGame, h]

/-- Concrete coming-soon manifest entry with no download urls. -/
def gameNoUrls : GameInfo :=
  ⟨"mystic_adventures", "Mystic Adventures", "0.0.1", "coming_soon",
    none, none, true, false⟩

theorem no_urls_returns_untouched_witness :
    handleDownloadGame envW [] stW gameNoUrls = (stW, .noUrls) :=
  no_urls_returns_untouched envW [] stW gameNoUrls (Or.inl rfl)

/-- Session-coordination events.  A clickInstall is a press of the Install
button; sessionFailed is one in-flight handleDownloadGame invocation ending
on its all-failed path (which runs setDownloading(null), line 341);
sessionCompleted is one ending on its success path (which returns at line
310 without resetting the downloading marker). -/
inductive UIEvent where
  | clickInstall (g : GameInfo)
  | sessionFailed (pid : String)
  | sessionCompleted (pid : String)
deriving DecidableEq, Repr

/-- The admission-relevant state: the single downloading slot of
src/src/App.tsx line 74 and the packageIds of the handleDownloadGame
invocations currently in flight (each is one non-terminal download
session). -/
structure CoordState where
  downloading : Option String
  sessions : List String
deriving DecidableEq, Repr

/-- Start state: nothing downloading, no session in flight. -/
def initCoord : CoordState := ⟨none, []⟩

/-- Admission semantics of src/src/App.tsx.  The Install button carries
disabled = (downloading === selectedGame.id) (line 975), so a click while
the slot holds that exact id does nothing; otherwise handleDownloadGame
starts: it returns at once when no download_urls exist (lines 261-264) and
else runs setDownloading(game.id) (line 266) and becomes an in-flight
session.  The mirror loop never re-reads the downloading slot, so a session
outlives any later overwrite of the slot. -/
def uiStep (s : CoordState) (e : UIEvent) : CoordState :=
  match e with
  | .clickInstall g =>
    if s.downloading = some g.id then s
    else
      match g.download_urls with
      | none => s
      | some [] => s
      | some _ => ⟨some g.id, g.id :: s.sessions⟩
  | .sessionFailed pid => ⟨none, s.sessions.erase pid⟩
  | .sessionCompleted pid => ⟨s.downloading, s.sessions.erase pid⟩

/-- The coordination state reached from the start state by a sequence of
events. -/
def uiRun (evs : List UIEvent) : CoordState :=
  evs.foldl uiStep initCoord

/-- C4 as stated, formalised over the event semantics: in every reachable
state, every packageId has at most one in-flight (non-terminal) session. -/
def atMostOneSessionPerId : Prop :=
  ∀ (evs : List UIEvent) (pid : String), (uiRun evs).sessions.count pid ≤ 1

/-- Concrete second manifest entry, used to overwrite the downloading
slot. -/
def gameB : GameInfo :=
  ⟨"brato_io", "Brato.io", "0.01", "available",
    some [mirB], none, false, false⟩

/-- C4 counterexample: Install stellar_quest, then Install brato_io, then
Install stellar_quest again.  The second click overwrites the single
downloading slot with brato_io, so the third click finds the
stellar_quest button enabled again (downloading === id is false) and admits
a second concurrent session for stellar_quest while the first is still in
flight: the per-packageId at-most-one invariant fails, and no
AlreadyInProgress rejection exists anywhere on this path. -/
theorem second_session_admitted_for_same_package : ¬ atMostOneSessionPerId := by
  intro h
  have := h [.clickInstall gameW, .clickInstall gameB, .clickInstall gameW]
    "stellar_quest"
  exact absurd this (by decide)

/-- C4 amended: while the downloading slot holds packageId p, a click on
the Install control for p is ignored — the control is disabled — so the
state, in particular every running session, is untouched; the guarantee
holds only as long as the slot still holds p, since any admitted install
for another package overwrites it. -/
theorem install_click_rejected_while_downloading
    (s : CoordState) (g : GameInfo) (h : s.downloading = some g.id) :
    uiStep s (.clickInstall g) = s := by
  simp [uiStep, h]

theorem install_click_rejected_while_downloading_witness :
    uiStep ⟨some "stellar_quest", ["stellar_quest"]⟩ (.clickInstall gameW) =
      ⟨some "stellar_quest", ["stellar_quest"]⟩ :=
  install_click_rejected_while_downloading
    ⟨some "stellar_quest", ["stellar_quest"]⟩ gameW rfl

/-- The status badge of the game sidebar, src/src/App.tsx lines 924-926:
the translation key whose text is rendered for an entry. -/
def statusLabelKey (g : GameInfo) : String :=
  if g.status = "available" then "launcher.games.available"
  else "launcher.games.coming_soon"

/-- What the action area of the game panel renders,
src/src/App.tsx lines 939-1002. -/
inductive PanelAction where
  | comingSoonButton : PanelAction
  | playUpdateRepair : PanelAction
  | installButton : PanelAction
deriving DecidableEq, Repr

/-- The nested conditionals of the game panel: the coming_soon status wins,
then an entry with a resolved executable gets the Play / Check Updates /
Repair group, and otherwise the Install button shows. -/
def panelAction (g : GameInfo) : PanelAction :=
  if g.status = "coming_soon" then .comingSoonButton
  else if g.executable_path.isSome then .playUpdateRepair
  else .installButton

/-- C8 as stated requires in particular that an entry annotated installed
is not displayed with the coming-soon rendering. -/
def installedNotShownAsComingSoon : Prop :=
  ∀ g : GameInfo, g.status = "installed" →
    statusLabelKey g ≠ "launcher.games.coming_soon"

/-- Concrete installed entry: status annotated installed, executable
resolved. -/
def gameInstalled : GameInfo :=
  ⟨"stellar_quest", "Stellar Quest", "2.2.3", "installed",
    some [mirA], some "C:\\Games\\AntChillGame\\sq.exe", false, true⟩

/-- C8 counterexample: the sidebar badge distinguishes only the status
string available from everything else, so an entry whose status is
installed renders the coming-soon badge — not an installed display. -/
theorem installed_entry_gets_coming_soon_badge :
    ¬ installedNotShownAsComingSoon := by
  intro h
  exact absurd (by decide :
    statusLabelKey gameInstalled = "launcher.games.coming_soon")
    (h gameInstalled (by decide))

/-- C8 amended: the game panel follows the precedence coming_soon (status
flag, dominating even a resolved executable) > installed (executable
present: Play / Update / Repair group) > available (Install button), with
no update_available display state; the sidebar badge, by contrast, only
distinguishes available from everything else, so every non-available
status — installed included — renders the coming-soon badge text. -/
theorem display_status_precedence :
    (∀ g : GameInfo, g.status = "coming_soon" →
      panelAction g = .comingSoonButton) ∧
    (∀ g : GameInfo, g.status ≠ "coming_soon" → g.executable_path.isSome →
      panelAction g = .playUpdateRepair) ∧
    (∀ g : GameInfo, g.status ≠ "coming_soon" → g.executable_path = none →
      panelAction g = .installButton) ∧
    (∀ g : GameInfo, g.status ≠ "available" →
      statusLabelKey g = "launcher.games.coming_soon") := by
  refine ⟨?_, ?_, ?_, ?_⟩ <;> intro g h
  · simp [panelAction, h]
  · intro hexe; simp [panelAction, h, hexe]
  · intro hexe; simp [panelAction, h, hexe]
  · simp [statusLabelKey, h]

theorem display_status_precedence_witness :
    panelAction gameNoUrls = .comingSoonButton ∧
    panelAction gameInstalled = .playUpdateRepair ∧
    panelAction gameW = .installButton ∧
    statusLabelKey gameInstalled = "launcher.games.coming_soon" :=
  ⟨display_status_precedence.1 gameNoUrls (by decide),
   display_status_precedence.2.1 gameInstalled (by decide) (by decide),
   display_status_precedence.2.2.1 gameW (by decide) (by decide),
   display_status_precedence.2.2.2 gameInstalled (by decide)⟩

/-- Session phase of interface DownloadProgress (src/unnamed/part_001 lines
45-52). -/
inductive DLStatus where
  | downloading : DLStatus
  | extracting : DLStatus
  | completed : DLStatus
  | error : DLStatus
deriving DecidableEq, Repr

/-- The per-session progress record of src/unnamed/part_001: percentage,
instantaneous speed (MB/s), downloaded and total size (MB).  The string
renderings toFixed / parseFloat are kept as numbers. -/
structure DownloadProgress where
  gameId : String
  progress : ℚ
  speed : ℚ
  downloaded : ℚ
  total : ℚ
  status : DLStatus
deriving DecidableEq, Repr

/-- One firing of the 500 ms progress interval, src/unnamed/part_001 lines
230-244: newProgress = min(prev.progress + delta, 95) where delta =
Math.random() * 10, a fresh speed sample, and downloaded = (newProgress /
100) * total. -/
def tickProgress (p : DownloadProgress) (delta spd : ℚ) : DownloadProgress :=
  let np := min (p.progress + delta) 95
  { p with progress := np, speed := spd, downloaded := np / 100 * p.total }

/-- The successive progress samples a session shows while the interval is
live: the state before each firing followed by the states after each. -/
def runTicks (p : DownloadProgress) : List (ℚ × ℚ) → List DownloadProgress
  | [] => [p]
  | d :: ds => p :: runTicks (tickProgress p d.1 d.2) ds

theorem runTicks_head (p : DownloadProgress) (ds : List (ℚ × ℚ)) :
    (runTicks p ds).head? = some p := by
  cases ds <;> rfl

/-- C9: across the successive samples of one session, progress and the
derived downloaded amount are non-decreasing, as long as every random
increment is non-negative (Math.random() * 10 always is), the session
starts within the 95 cap, its downloaded field matches its progress, and
the total size is non-negative. -/
theorem progress_nondecreasing
    (p : DownloadProgress) (ds : List (ℚ × ℚ))
    (hd : ∀ d ∈ ds, 0 ≤ d.1) (hp : p.progress ≤ 95)
    (hdl : p.downloaded = p.progress / 100 * p.total) (ht : 0 ≤ p.total) :
    List.Chain'
      (fun a b => a.progress ≤ b.progress ∧ a.downloaded ≤ b.downloaded)
      (runTicks p ds) := by
  induction ds generalizing p with
  | nil => simp [runTicks]
  | cons d ds ih =>
    have h1 : 0 ≤ d.1 := hd d (List.mem_cons_self d ds)
    have hmono : p.progress ≤ (tickProgress p d.1 d.2).progress := by
      simp only [tickProgress]
      exact le_min (by linarith) hp
    have hp' : (tickProgress p d.1 d.2).progress ≤ 95 := min_le_right _ _
    have hdl' : (tickProgress p d.1 d.2).downloaded =
        (tickProgress p d.1 d.2).progress / 100 * (tickProgress p d.1 d.2).total := rfl
    have hdlmono : p.downloaded ≤ (tickProgress p d.1 d.2).downloaded := by
      rw [hdl, hdl']
      have htot : (tickProgress p d.1 d.2).total = p.total := rfl
      rw [htot]
      have : p.progress / 100 ≤ (tickProgress p d.1 d.2).progress / 100 := by
        linarith
      exact mul_le_mul_of_nonneg_right this ht
    have hchain := ih (tickProgress p d.1 d.2)
      (fun x hx => hd x (List.mem_cons_of_mem d hx)) hp' hdl' ht
    show List.Chain' _ (p :: runTicks (tickProgress p d.1 d.2) ds)
    refine List.chain'_cons'.mpr ⟨?_, hchain⟩
    intro y hy
    rw [runTicks_head] at hy
    cases hy
    exact ⟨hmono, hdlmono⟩

/-- Concrete session start used by the progress witness. -/
def prog0 : DownloadProgress := ⟨"stellar_quest", 0, 0, 0, 1200, .downloading⟩

theorem progress_nondecreasing_witness :
    (∀ d ∈ [((7 : ℚ), (3 : ℚ)), (50, 2), (80, 1)], 0 ≤ d.1) ∧
    List.Chain'
      (fun a b => a.progress ≤ b.progress ∧ a.downloaded ≤ b.downloaded)
      (runTicks prog0 [((7 : ℚ), (3 : ℚ)), (50, 2), (80, 1)]) :=
  ⟨by norm_num,
   progress_nondecreasing prog0 [((7 : ℚ), (3 : ℚ)), (50, 2), (80, 1)]
     (by norm_num) (by norm_num [prog0]) (by norm_num [prog0])
     (by norm_num [prog0])⟩

/-- Modelled from the spec: BackupSnapshot of §3 — the Update & Backup
Manager lives in the Rust backend behind the download_game_update Tauri
command, which is not among the source files. -/
structure BackupSnapshot where
  version : String
  createdAt : Nat
  path : String
deriving DecidableEq, Repr

/-- Modelled from the spec: InstalledRecord of §3 — created on first
successful install, mutated only by the Update & Backup Manager and the
Repair Engine, both in the absent backend. -/
structure InstalledRecord where
  packageId : String
  installedVersion : String
  installDir : String
  executablePath : String
  backups : List BackupSnapshot
deriving DecidableEq, Repr

/-- Modelled from the spec: the outcome of one run of the Install/Extract
Pipeline of §4.3 (in the absent backend) — the atomically published paths,
or the error of whichever step failed. -/
inductive PipelineResult where
  | ok (installDir executablePath : String) : PipelineResult
  | failed (reason : String) : PipelineResult
deriving DecidableEq, Repr

/-- Modelled from the spec: how a pipeline run updates the persisted record
of a package (§4.3 and §3 invariant two, in the absent backend): on any
step failure the scratch data is discarded and the prior record — version
and live directory — is returned untouched; only on success are the new
paths published and installedVersion set to the new version, in one step. -/
def applyPipeline (rec : Option InstalledRecord) (pid newVersion : String)
    (out : PipelineResult) : Option InstalledRecord :=
  match out with
  | .failed _ => rec
  | .ok dir exe =>
    match rec with
    | none => some ⟨pid, newVersion, dir, exe, []⟩
    | some r => some { r with installedVersion := newVersion,
                              installDir := dir, executablePath := exe }

/-- C5: a pipeline attempt that ends Failed leaves the record — its
installedVersion and its live install directory — exactly as before, and
contrapositively any visible change to the record means the run completed
successfully and the version is now the new one, atomically with the new
paths. -/
theorem failed_attempt_preserves_record
    (rec : Option InstalledRecord) (pid v : String) (out : PipelineResult) :
    (∀ e, out = .failed e → applyPipeline rec pid v out = rec) ∧
    (applyPipeline rec pid v out ≠ rec →
      ∃ dir exe, out = .ok dir exe ∧
        (applyPipeline rec pid v out).map (fun r => r.installedVersion) =
          some v) := by
  constructor
  · intro e he; subst he; rfl
  · intro hne
    cases out with
    | failed e => exact absurd rfl hne
    | ok dir exe =>
      refine ⟨dir, exe, rfl, ?_⟩
      cases rec <;> rfl

/-- Concrete installed record used by the backend witnesses. -/
def recW : InstalledRecord :=
  ⟨"stellar_quest", "2.2.3", "C:\\Games\\AntChillGame\\sq",
    "C:\\Games\\AntChillGame\\sq\\sq.exe", []⟩

theorem failed_attempt_preserves_record_witness :
    applyPipeline (some recW) "stellar_quest" "2.3.0" (.failed "disk full") =
      some recW ∧
    (applyPipeline (some recW) "stellar_quest" "2.3.0"
        (.ok "C:\\new" "C:\\new\\sq.exe")).map
      (fun r => r.installedVersion) = some "2.3.0" := by
  constructor
  · exact (failed_attempt_preserves_record (some recW) "stellar_quest" "2.3.0"
      (.failed "disk full")).1 "disk full" rfl
  · obtain ⟨dir, exe, -, hv⟩ :=
      (failed_attempt_preserves_record (some recW) "stellar_quest" "2.3.0"
        (.ok "C:\\new" "C:\\new\\sq.exe")).2 (by decide)
    exact hv

/-- Modelled from the spec: oldest createdAt among retained snapshots
(§3 invariant three, backend absent). -/
def minCreatedAt : List BackupSnapshot → Nat
  | [] => 0
  | [s] => s.createdAt
  | s :: rest => min s.createdAt (minCreatedAt rest)

/-- Modelled from the spec: drop the first snapshot holding the oldest
createdAt (§4.4 prune, oldest first; backend absent). -/
def removeOldest : List BackupSnapshot → List BackupSnapshot
  | [] => []
  | [_] => []
  | s :: rest =>
    if s.createdAt ≤ minCreatedAt rest then rest else s :: removeOldest rest

/-- Modelled from the spec: inserting the snapshot taken before an update
and pruning past the retention cap of three, oldest evicted (§3 invariant
three, §4.4; backend absent). -/
def insertBackup (backups : List BackupSnapshot) (s : BackupSnapshot) :
    List BackupSnapshot :=
  let l := backups ++ [s]
  if l.length ≤ 3 then l else removeOldest l

theorem removeOldest_length (l : List BackupSnapshot) (h : l ≠ []) :
    (removeOldest l).length = l.length - 1 := by
  induction l with
  | nil => exact absurd rfl h
  | cons s rest ih =>
    cases rest with
    | nil => simp [removeOldest]
    | cons t ts =>
      by_cases hc : s.createdAt ≤ minCreatedAt (t :: ts)
      · simp [removeOldest, hc]
      · have := ih (by simp)
        simp only [removeOldest, hc, if_false, List.length_cons] at this ⊢
        omega

/-- C6: the retained backups never exceed three — an insert from at most
three leaves at most three — and four sequential successful updates with
increasing timestamps retain exactly the three newest snapshots, the
oldest having been evicted. -/
theorem backup_cap_three :
    (∀ (backups : List BackupSnapshot) (s : BackupSnapshot),
      backups.length ≤ 3 → (insertBackup backups s).length ≤ 3) ∧
    (∀ s1 s2 s3 s4 : BackupSnapshot,
      s1.createdAt < s2.createdAt → s1.createdAt < s3.createdAt →
      s1.createdAt < s4.createdAt →
      insertBackup (insertBackup (insertBackup (insertBackup [] s1) s2) s3) s4
        = [s2, s3, s4]) := by
  constructor
  · intro backups s hlen
    by_cases hc : (backups ++ [s]).length ≤ 3
    · simp only [insertBackup, hc, if_true]
    · simp only [insertBackup, hc, if_false]
      have hne : backups ++ [s] ≠ [] := by simp
      rw [removeOldest_length _ hne]
      simp only [List.length_append, List.length_cons, List.length_nil]
      omega
  · intro s1 s2 s3 s4 h2 h3 h4
    have hmin : s1.createdAt ≤ minCreatedAt [s2, s3, s4] := by
      simp only [minCreatedAt]
      omega
    simp [insertBackup, removeOldest, hmin]

/-- Concrete snapshots for the four sequential updates of the witness. -/
def snap (n : Nat) : BackupSnapshot :=
  ⟨"2.2." ++ toString n, n, "backup-" ++ toString n⟩

theorem backup_cap_three_witness :
    (insertBackup [snap 1, snap 2, snap 3] (snap 4)).length ≤ 3 ∧
    insertBackup (insertBackup (insertBackup (insertBackup [] (snap 1))
      (snap 2)) (snap 3)) (snap 4) = [snap 2, snap 3, snap 4] :=
  ⟨backup_cap_three.1 [snap 1, snap 2, snap 3] (snap 4) (by decide),
   backup_cap_three.2 (snap 1) (snap 2) (snap 3) (snap 4)
     (by decide) (by decide) (by decide)⟩

/-- Modelled from the spec: what the repair_game backend command reports
(§4.5, interface RepairResult of src/src/App.tsx without the free-text
message). -/
structure RepairReport where
  success : Bool
  repaired_files : List String
  errors : List String
deriving DecidableEq, Repr

/-- Modelled from the spec: the live install the Repair Engine validates —
the record plus whether its executable is actually present on disk
(validation is the presence check of §4.5; backend absent). -/
structure LiveInstall where
  record : InstalledRecord
  executablePresent : Bool
deriving DecidableEq, Repr

/-- Modelled from the spec: Repair of §4.5 (backend absent).  A valid live
install — executable present — is a no-op success with an empty
repaired-file list; an invalid one is deleted entirely and reinstalled via
the pipeline from the current mirrors, reporting the restored files. -/
def repairGame (fresh : LiveInstall) (restored : List String)
    (inst : LiveInstall) : RepairReport × LiveInstall :=
  if inst.executablePresent then (⟨true, [], []⟩, inst)
  else (⟨true, restored, []⟩, fresh)

/-- C7: repairing a valid install succeeds with an empty repaired-file list
and leaves the install untouched, and doing it again changes nothing —
repair of a valid install is an idempotent no-op. -/
theorem repair_valid_install_noop
    (fresh : LiveInstall) (restored : List String) (inst : LiveInstall)
    (h : inst.executablePresent = true) :
    repairGame fresh restored inst = (⟨true, [], []⟩, inst) ∧
    repairGame fresh restored (repairGame fresh restored inst).2 =
      repairGame fresh restored inst := by
  simp [repairGame, h]

/-- Concrete valid live install used by the repair witness. -/
def liveW : LiveInstall := ⟨recW, true⟩

theorem repair_valid_install_noop_witness :
    repairGame ⟨recW, true⟩ ["sq.exe"] liveW = (⟨true, [], []⟩, liveW) ∧
    repairGame ⟨recW, true⟩ ["sq.exe"]
        (repairGame ⟨recW, true⟩ ["sq.exe"] liveW).2 =
      repairGame ⟨recW, true⟩ ["sq.exe"] liveW :=
  repair_valid_install_noop ⟨recW, true⟩ ["sq.exe"] liveW rfl

end Launcher
